import Mathlib

/-!
# Verification of the `wassap` chat-transcript parser

A shallow embedding of `src/wassap/parser.py`: the line reassembler
(`Chat._build_messages`), the per-line message parser (`Message.parse_line` /
`Message.from_line`, including the system-message fallback), the timestamp
conversion performed by `dateutil.parser.parse` on the two timestamp shapes the
regexes admit, and the `Chat` construction, slicing and filter operators.

Strings are modelled as `List Char`.  The embedding models physical and logical
lines that contain no interior newline character — the domain actually produced
by reading a transcript file line by line and right-trimming — and the theorems
about the regex-based extraction carry explicit no-newline hypotheses, because
Python's `.`/`$` treat an interior `'\n'` specially.  Python's `str.rstrip` is
modelled on its ASCII whitespace set.
-/

namespace Wassap

/-- Strings are modelled as lists of characters. -/
abbrev Str := List Char

/-- ASCII whitespace characters stripped by Python's `str.rstrip()`. -/
def isPySpace (c : Char) : Bool :=
  c = ' ' || c = '\t' || c = '\n' || c = '\x0d' || c = '\x0b' || c = '\x0c'

/-- Python `str.rstrip()`: remove trailing whitespace. -/
def rstrip (l : Str) : Str :=
  (l.reverse.dropWhile isPySpace).reverse

/-- The decimal digit character for `n % 10`. -/
def digitChar (n : Nat) : Char := Char.ofNat (48 + n % 10)

/-- Zero-padded two-digit decimal rendering, as Python `'%02d'` for values below 100. -/
def pad2 (n : Nat) : Str := [digitChar (n / 10), digitChar n]

/-- Zero-padded four-digit decimal rendering, as Python `'%04d'` for values below 10000. -/
def pad4 (n : Nat) : Str := [digitChar (n / 1000), digitChar (n / 100), digitChar (n / 10), digitChar n]

/-- A parsed date-time value (`datetime.datetime` with zero microseconds). -/
structure DateTime where
  year : Nat
  month : Nat
  day : Nat
  hour : Nat
  minute : Nat
  second : Nat
deriving DecidableEq, Repr

/-- Gregorian leap-year rule used by `datetime.date`. -/
def isLeap (y : Nat) : Bool :=
  (y % 4 = 0 && y % 100 ≠ 0) || y % 400 = 0

/-- Number of days in a month, as validated by `datetime.datetime`. -/
def daysInMonth (y m : Nat) : Nat :=
  if m = 2 then (if isLeap y then 29 else 28)
  else if m = 4 || m = 6 || m = 9 || m = 11 then 30
  else 31

/-- `datetime.datetime(y, mo, dy, hh, mi, ss)`: `some` exactly when all components
are in range (this is the validation that makes `dateutil` raise on e.g. `31/04`). -/
def mkDateTime (y mo dy hh mi ss : Nat) : Option DateTime :=
  if 1 ≤ y ∧ y ≤ 9999 ∧ 1 ≤ mo ∧ mo ≤ 12 ∧ 1 ≤ dy ∧ dy ≤ daysInMonth y mo
      ∧ hh ≤ 23 ∧ mi ≤ 59 ∧ ss ≤ 59 then
    some ⟨y, mo, dy, hh, mi, ss⟩
  else none

/-- `ts` is exactly a `YYYY-MM-DD HH:MM:SS` digit shape. -/
def tsShapeMsg : Str → Bool
  | [y1, y2, y3, y4, '-', o1, o2, '-', e1, e2, ' ', h1, h2, ':', i1, i2, ':', s1, s2] =>
    y1.isDigit && y2.isDigit && y3.isDigit && y4.isDigit && o1.isDigit && o2.isDigit
      && e1.isDigit && e2.isDigit && h1.isDigit && h2.isDigit && i1.isDigit && i2.isDigit
      && s1.isDigit && s2.isDigit
  | _ => false

/-- `ts` is exactly a `DD/MM/YYYY, HH:MM` digit shape. -/
def tsShapeRaw : Str → Bool
  | [a1, a2, '/', b1, b2, '/', y1, y2, y3, y4, ',', ' ', h1, h2, ':', i1, i2] =>
    a1.isDigit && a2.isDigit && b1.isDigit && b2.isDigit && y1.isDigit && y2.isDigit
      && y3.isDigit && y4.isDigit && h1.isDigit && h2.isDigit && i1.isDigit && i2.isDigit
  | _ => false

/-- The numeric value of the digit character at position `i` of `ts`. -/
def digAt (ts : Str) (i : Nat) : Nat :=
  (ts.getD i '0').toNat - 48

/-- `resolve_ymd` and `datetime` construction for the tokens of a stringified
`YYYY-MM-DD HH:MM:SS` timestamp: the year is the first token, so `dateutil` keeps
`Y-M-D` order unless `dayfirst` holds and the third token is at most twelve, in
which case it reads `Y-D-M` (the documented day-first quirk). -/
def resolveMsg (y mo dy hh mi ss : Nat) (df : Bool) : Option DateTime :=
  let p := if df ∧ dy ≤ 12 then (dy, mo) else (mo, dy)
  mkDateTime y p.1 p.2 hh mi ss

/-- `resolve_ymd` and `datetime` construction for the tokens of a raw
`DD/MM/YYYY, HH:MM` timestamp.  Only the third token is marked as a year
(`ystridx = 2`, and the four-digit string sets `century_specified`, so no century
adjustment happens), hence with `yearfirst` unset the branches of `resolve_ymd`
reduce to: a first token above thirty-one is itself taken as the year, with day
and month drawn from the remaining two tokens (transposed when `dayfirst` holds and
the four-digit token's value is at most twelve, e.g. `45/13/0010` with
`dayfirst` is year 45, day 13, month 10); otherwise the first token is the day
exactly when it exceeds twelve or `dayfirst` holds and the second token is at
most twelve, else the first token is the month.  Seconds default to zero. -/
def resolveRaw (a b y hh mi : Nat) (df : Bool) : Option DateTime :=
  if 31 < a then
    let p := if df ∧ y ≤ 12 then (b, y) else (y, b)
    mkDateTime a p.2 p.1 hh mi 0
  else
    let p := if 12 < a ∨ (df ∧ b ≤ 12) then (a, b) else (b, a)
    mkDateTime y p.2 p.1 hh mi 0

/-- `dateutil.parser.parse(ts, dayfirst=df)` restricted to the two timestamp string
shapes the regexes of `Message.parse_line` can produce: read the digit tokens off
the fixed positions of the shape and resolve them as `dateutil` does. -/
def parse_date (ts : Str) (df : Bool) : Option DateTime :=
  if tsShapeMsg ts then
    resolveMsg (1000 * digAt ts 0 + 100 * digAt ts 1 + 10 * digAt ts 2 + digAt ts 3)
      (10 * digAt ts 5 + digAt ts 6) (10 * digAt ts 8 + digAt ts 9)
      (10 * digAt ts 11 + digAt ts 12) (10 * digAt ts 14 + digAt ts 15)
      (10 * digAt ts 17 + digAt ts 18) df
  else if tsShapeRaw ts then
    resolveRaw (10 * digAt ts 0 + digAt ts 1) (10 * digAt ts 3 + digAt ts 4)
      (1000 * digAt ts 6 + 100 * digAt ts 7 + 10 * digAt ts 8 + digAt ts 9)
      (10 * digAt ts 12 + digAt ts 13) (10 * digAt ts 15 + digAt ts 16) df
  else none

/-- `str(datetime)` for a value with zero microseconds: `YYYY-MM-DD HH:MM:SS`. -/
def fmtDateTime (t : DateTime) : Str :=
  pad4 t.year ++ '-' :: pad2 t.month ++ '-' :: pad2 t.day
    ++ ' ' :: pad2 t.hour ++ ':' :: pad2 t.minute ++ ':' :: pad2 t.second

/-- Transposition of month and day performed by the `dayfirst=True` quirk of
`dateutil` when it re-reads a stringified `YYYY-MM-DD` timestamp whose day
component is at most twelve. -/
def swapTime (df : Bool) (t : DateTime) : DateTime :=
  if df ∧ t.day ≤ 12 then ⟨t.year, t.day, t.month, t.hour, t.minute, t.second⟩ else t

/-- All components of `t` are in the ranges `datetime.datetime` accepts. -/
def validDateTime (t : DateTime) : Bool :=
  decide (1 ≤ t.year ∧ t.year ≤ 9999 ∧ 1 ≤ t.month ∧ t.month ≤ 12 ∧ 1 ≤ t.day
    ∧ t.day ≤ daysInMonth t.year t.month ∧ t.hour ≤ 23 ∧ t.minute ≤ 59 ∧ t.second ≤ 59)

/-- The anchored prefix `(^[0-9]{4}-[0-9]{2}-[0-9]{2} [0-9]{2}:[0-9]{2}:[0-9]{2})` of the
"stringified" patterns: on success, the 19 matched characters and the rest of the line. -/
def matchMsgTs : Str → Option (Str × Str)
  | y1 :: y2 :: y3 :: y4 :: '-' :: o1 :: o2 :: '-' :: e1 :: e2 :: ' '
      :: h1 :: h2 :: ':' :: i1 :: i2 :: ':' :: s1 :: s2 :: rest =>
    if (y1.isDigit && y2.isDigit && y3.isDigit && y4.isDigit && o1.isDigit && o2.isDigit
        && e1.isDigit && e2.isDigit && h1.isDigit && h2.isDigit && i1.isDigit && i2.isDigit
        && s1.isDigit && s2.isDigit) then
      some ([y1, y2, y3, y4, '-', o1, o2, '-', e1, e2, ' ', h1, h2, ':', i1, i2, ':', s1, s2], rest)
    else none
  | _ => none

/-- The anchored prefix `(^[0-9]{2}/[0-9]{2}/[0-9]{4}, [0-9]{2}:[0-9]{2})` of the
"raw export" patterns: on success, the 17 matched characters and the rest of the line. -/
def matchRawTs : Str → Option (Str × Str)
  | a1 :: a2 :: '/' :: b1 :: b2 :: '/' :: y1 :: y2 :: y3 :: y4 :: ','
      :: ' ' :: h1 :: h2 :: ':' :: i1 :: i2 :: rest =>
    if (a1.isDigit && a2.isDigit && b1.isDigit && b2.isDigit && y1.isDigit && y2.isDigit
        && y3.isDigit && y4.isDigit && h1.isDigit && h2.isDigit && i1.isDigit && i2.isDigit) then
      some ([a1, a2, '/', b1, b2, '/', y1, y2, y3, y4, ',', ' ', h1, h2, ':', i1, i2], rest)
    else none
  | _ => none

/-- `(.*?): (.*)$` after the separator: split at the first occurrence of `": "`
(the non-greedy author capture), returning the author and content segments. -/
def splitFirstColonSpace : Str → Option (Str × Str)
  | [] => none
  | c :: rest =>
    if c = ':' ∧ rest.head? = some ' ' then some ([], rest.tail)
    else (splitFirstColonSpace rest).map (fun p => (c :: p.1, p.2))

/-- Whether `": "` occurs anywhere in the string. -/
def containsCS : Str → Bool
  | [] => false
  | c :: rest => (c = ':' && rest.head? == some ' ') || containsCS rest

/-- `.*((?<=- ).*$)`: the segment following the last occurrence of `"- "`,
or `none` when `"- "` does not occur. -/
def afterLastDashSpace : Str → Option Str
  | [] => none
  | '-' :: ' ' :: rest => some ((afterLastDashSpace rest).getD rest)
  | _ :: rest => afterLastDashSpace rest

/-- After the timestamp group, the primary patterns require the literal `" - "`
and then the non-greedy author/content split. -/
def primaryAfterTs : Str → Option (Str × Str)
  | ' ' :: '-' :: ' ' :: tail => splitFirstColonSpace tail
  | _ => none

/-- `p_reg_msg`: `(^<stringified ts>) - (.*?): (.*)$`. -/
def primaryMsg (line : Str) : Option (Str × Str × Str) :=
  (matchMsgTs line).bind fun p => (primaryAfterTs p.2).map fun q => (p.1, q.1, q.2)

/-- `p_reg_raw`: `(^<raw ts>) - (.*?): (.*)$`. -/
def primaryRaw (line : Str) : Option (Str × Str × Str) :=
  (matchRawTs line).bind fun p => (primaryAfterTs p.2).map fun q => (p.1, q.1, q.2)

/-- `sys_reg_msg`: `(^<stringified ts>).*((?<=- ).*$)`. -/
def fallbackMsg (line : Str) : Option (Str × Str) :=
  (matchMsgTs line).bind fun p => (afterLastDashSpace p.2).map fun c => (p.1, c)

/-- `sys_reg_raw`: `(^<raw ts>).*((?<=- ).*$)`. -/
def fallbackRaw (line : Str) : Option (Str × Str) :=
  (matchRawTs line).bind fun p => (afterLastDashSpace p.2).map fun c => (p.1, c)

/-- The sentinel author for system messages. -/
def sysAuthor : Str := "_SYSTEM_".data

/-- `Message.parse_line(line, day_first)`: try the stringified primary pattern, then
the raw primary pattern; if neither matches, try the stringified then the raw
system-message fallback with the sentinel author; convert the matched timestamp
text with `dateutil` and right-strip the content.  `none` models the exception
path (no pattern matched, or the timestamp text failed to convert). -/
def parse_line (line : Str) (df : Bool) : Option (DateTime × Str × Str) :=
  match primaryMsg line <|> primaryRaw line with
  | some (ts, a, c) => (parse_date ts df).map fun t => (t, a, rstrip c)
  | none =>
    match fallbackMsg line <|> fallbackRaw line with
    | some (ts, c) => (parse_date ts df).map fun t => (t, sysAuthor, rstrip c)
    | none => none

/-- The payload of `ParsingException` raised by `Message.from_line`: the offending
line text and its length. -/
structure ParsingException where
  line : Str
  length : Nat
deriving DecidableEq, Repr

/-- The parsed message record (`Message` pydantic model: `time`, `author`, `content`). -/
structure Message where
  time : DateTime
  author : Str
  content : Str
deriving DecidableEq, Repr

instance {ε α : Type} [DecidableEq ε] [DecidableEq α] : DecidableEq (Except ε α) := fun x y =>
  match x, y with
  | .ok a, .ok b =>
    if h : a = b then .isTrue (by rw [h]) else .isFalse (by simp [h])
  | .error a, .error b =>
    if h : a = b then .isTrue (by rw [h]) else .isFalse (by simp [h])
  | .ok _, .error _ => .isFalse (by simp)
  | .error _, .ok _ => .isFalse (by simp)

/-- `Message.from_line`: build a record from `parse_line`, wrapping any failure into a
`ParsingException` carrying the offending line and its length. -/
def from_line (line : Str) (df : Bool) : Except ParsingException Message :=
  match parse_line line df with
  | some (t, a, c) => .ok ⟨t, a, c⟩
  | none => .error ⟨line, line.length⟩

/-- `Message.__str__`: `f'{self.time} - {self.author}: {self.content}'`. -/
def msgToStr (m : Message) : Str :=
  fmtDateTime m.time ++ ' ' :: '-' :: ' ' :: (m.author ++ ':' :: ' ' :: m.content)

/-- Anchored prefix test `^[0-9]{2}/[0-9]{2}/[0-9]{4}` of `Chat._is_new_message`. -/
def matchRawStart : Str → Bool
  | a1 :: a2 :: '/' :: b1 :: b2 :: '/' :: y1 :: y2 :: y3 :: y4 :: _ =>
    a1.isDigit && a2.isDigit && b1.isDigit && b2.isDigit && y1.isDigit && y2.isDigit
      && y3.isDigit && y4.isDigit
  | _ => false

/-- Anchored prefix test `^[0-9]{4}-[0-9]{2}-[0-9]{2}` of `Chat._is_new_message`. -/
def matchMsgStart : Str → Bool
  | y1 :: y2 :: y3 :: y4 :: '-' :: o1 :: o2 :: '-' :: e1 :: e2 :: _ =>
    y1.isDigit && y2.isDigit && y3.isDigit && y4.isDigit && o1.isDigit && o2.isDigit
      && e1.isDigit && e2.isDigit
  | _ => false

/-- `Chat._is_new_message`: the line starts with one of the two date prefixes. -/
def is_new_message (line : Str) : Bool :=
  matchRawStart line || matchMsgStart line

/-- The loop of `Chat._build_messages`, with the accumulated logical lines kept in
reverse order (head = most recently started message).  A new-message line starts a
fresh right-trimmed logical line; any other line is appended, right-trimmed and
preceded by one space, to the most recent one; `none` models the `IndexError`
raised when there is no started line to append to. -/
def buildAux (acc : List Str) : List Str → Option (List Str)
  | [] => some acc.reverse
  | l :: ls =>
    if is_new_message l then buildAux (rstrip l :: acc) ls
    else
      match acc with
      | [] => none
      | m :: rest => buildAux ((m ++ ' ' :: rstrip l) :: rest) ls

/-- `Chat._build_messages(lines)`. -/
def build_messages (lines : List Str) : Option (List Str) :=
  buildAux [] lines

/-- The text of one logical line: the right-trimmed new-message line followed by its
right-trimmed continuation lines, separated by single spaces. -/
def joinGroup (l : Str) (conts : List Str) : Str :=
  conts.foldl (fun a c => a ++ ' ' :: rstrip c) (rstrip l)

/-- Reassembly stated structurally (the specification's reading of the algorithm):
each new-message line together with the run of non-new-message lines after it
forms one logical line; a leading non-new-message line is a structural error. -/
def reassemble : List Str → Option (List Str)
  | [] => some []
  | l :: ls =>
    if is_new_message l then
      (reassemble (ls.dropWhile fun x => !is_new_message x)).map
        (fun r => joinGroup l (ls.takeWhile fun x => !is_new_message x) :: r)
    else none
termination_by l => l.length
decreasing_by
  simp only [List.length_cons]
  exact Nat.lt_succ_of_le (List.Sublist.length_le (List.dropWhile_sublist _))

/-- The `Chat.messages` setter applied to the logical lines: parse each line that is
not exactly `"\n"`; `none` models a `ParsingException` escaping the constructor. -/
def parse_messages (logical : List Str) (df : Bool) : Option (List Message) :=
  (logical.filter (fun l => l != ['\n'])).mapM (fun l => (from_line l df).toOption)

/-- The state of a successfully constructed `Chat` object. -/
structure Chat where
  raw_lines : List Str
  day_first : Bool
  messages : List Message
  participants : Finset Str

/-- `Chat.__init__(lines, day_first)`: reassemble the raw lines, parse every logical
line, and record the participant set (the distinct authors).  `none` models a
constructor failure: an empty `lines` (the falsy branch leaves `messages` unset and
`create_df` raises), the `IndexError` of `_build_messages`, or a `ParsingException`
from `Message.from_line`. -/
def chatMk (lines : List Str) (df : Bool) : Option Chat :=
  if lines.isEmpty then none
  else (build_messages lines).bind fun logical =>
    (parse_messages logical df).map fun msgs =>
      ⟨lines, df, msgs, (msgs.map Message.author).toFinset⟩

/-- Python's `l[a:b]` for non-negative bounds. -/
def pySlice (a b : Nat) (l : List α) : List α :=
  (l.drop a).take (b - a)

/-- `Chat.__getitem__` with a slice key: rebuild a `Chat` from the sliced raw lines
(with the constructor's default `day_first=True`). -/
def chatGetSlice (c : Chat) (a b : Nat) : Option Chat :=
  chatMk (pySlice a b c.raw_lines) true

/-- `Chat.__getitem__` with an integer key: the message at that position. -/
def chatGetIdx (c : Chat) (i : Nat) : Option Message :=
  c.messages.get? i

/-- Python's substring test `needle in hay`: contiguous infix. -/
def isSubstr (needle hay : Str) : Bool :=
  decide (needle <:+: hay)

/-- `Chat.__lshift__(value)`: keep messages whose content contains `value`,
rebuilding a `Chat` from their string forms (default `day_first=True`). -/
def chatLshift (c : Chat) (v : Str) : Option Chat :=
  chatMk ((c.messages.filter (fun m => isSubstr v m.content)).map msgToStr) true

/-- `Chat.__rshift__(value)`: keep messages whose content does not contain `value`. -/
def chatRshift (c : Chat) (v : Str) : Option Chat :=
  chatMk ((c.messages.filter (fun m => !isSubstr v m.content)).map msgToStr) true

/-- `Chat.__and__(value)` with a list argument: keep messages whose author is in it. -/
def chatAndList (c : Chat) (vs : List Str) : Option Chat :=
  chatMk ((c.messages.filter (fun m => vs.contains m.author)).map msgToStr) true

/-- `Chat.__and__(value)` with a string argument: keep messages by that author. -/
def chatAndStr (c : Chat) (v : Str) : Option Chat :=
  chatMk ((c.messages.filter (fun m => m.author == v)).map msgToStr) true

/-- `Chat.__or__(value)` with a list argument: keep messages whose author is not in it. -/
def chatOrList (c : Chat) (vs : List Str) : Option Chat :=
  chatMk ((c.messages.filter (fun m => !vs.contains m.author)).map msgToStr) true

/-- `Chat.__or__(value)` with a string argument: keep messages not by that author. -/
def chatOrStr (c : Chat) (v : Str) : Option Chat :=
  chatMk ((c.messages.filter (fun m => m.author != v)).map msgToStr) true

/-! ## Lemmas about the character-level scanners -/

theorem containsCS_cons (x : Char) (xs : Str) :
    containsCS (x :: xs) = ((decide (x = ':') && (xs.head? == some ' ')) || containsCS xs) :=
  rfl

theorem containsCS_tail {x : Char} {xs : Str} (h : containsCS (x :: xs) = false) :
    containsCS xs = false := by
  rw [containsCS_cons, Bool.or_eq_false_iff] at h
  exact h.2

theorem splitCS_complete {a : Str} (c : Str) (h : containsCS a = false) :
    splitFirstColonSpace (a ++ ':' :: ' ' :: c) = some (a, c) := by
  induction a with
  | nil => simp [splitFirstColonSpace]
  | cons x xs ih =>
    rw [containsCS_cons, Bool.or_eq_false_iff] at h
    obtain ⟨h1, h2⟩ := h
    have hneg : ¬(x = ':' ∧ (xs ++ ':' :: ' ' :: c).head? = some ' ') := by
      rintro ⟨rfl, hh⟩
      cases xs with
      | nil => simp at hh
      | cons y ys =>
        simp only [List.cons_append, List.head?_cons, Option.some_inj] at hh
        subst hh
        simp at h1
    simp only [List.cons_append, splitFirstColonSpace, if_neg hneg, List.append_eq, ih h2]
    rfl

theorem splitCS_none {s : Str} (h : containsCS s = false) :
    splitFirstColonSpace s = none := by
  induction s with
  | nil => rfl
  | cons x xs ih =>
    rw [containsCS_cons, Bool.or_eq_false_iff] at h
    obtain ⟨h1, h2⟩ := h
    simp only [splitFirstColonSpace]
    rw [if_neg, ih h2]
    · rfl
    · rintro ⟨rfl, hh⟩
      rw [hh] at h1
      exact absurd h1 (by decide)

theorem splitCS_sound : ∀ {s a c : Str}, splitFirstColonSpace s = some (a, c) →
    s = a ++ ':' :: ' ' :: c ∧ containsCS a = false := by
  intro s
  induction s with
  | nil => intro a c h; simp [splitFirstColonSpace] at h
  | cons x xs ih =>
    intro a c h
    simp only [splitFirstColonSpace] at h
    by_cases hx : x = ':' ∧ xs.head? = some ' '
    · rw [if_pos hx] at h
      obtain ⟨hx1, hx2⟩ := hx
      cases xs with
      | nil => simp at hx2
      | cons y ys =>
        simp only [List.head?_cons, Option.some_inj] at hx2
        simp only [Option.some_inj, Prod.mk.injEq] at h
        obtain ⟨rfl, rfl⟩ := h
        subst hx1; subst hx2
        exact ⟨rfl, rfl⟩
    · rw [if_neg hx] at h
      cases hsp : splitFirstColonSpace xs with
      | none => rw [hsp] at h; simp at h
      | some p =>
        rw [hsp] at h
        simp only [Option.map_some', Option.some_inj, Prod.mk.injEq] at h
        obtain ⟨rfl, rfl⟩ := h
        obtain ⟨hxs, hp⟩ := ih hsp
        refine ⟨by rw [hxs]; rfl, ?_⟩
        rw [containsCS_cons, Bool.or_eq_false_iff]
        refine ⟨?_, hp⟩
        cases hp1 : p.1 with
        | nil =>
          have hb : (p.1.head? == some ' ') = false := by rw [hp1]; rfl
          simp [hb]
        | cons z zs =>
          by_cases hxc : x = ':'
          · subst hxc
            have hz : ¬ z = ' ' := by
              intro hz
              refine hx ⟨rfl, ?_⟩
              rw [hxs, hp1, hz]
              rfl
            simp only [List.head?_cons]
            have hb : ((some z == some ' ') = false) := by simpa using hz
            rw [hb, Bool.and_false]
          · simp [hxc]

theorem afterLDS_cons (x : Char) (xs : Str) :
    afterLastDashSpace (x :: xs) =
      if x = '-' ∧ xs.head? = some ' ' then some ((afterLastDashSpace xs.tail).getD xs.tail)
      else afterLastDashSpace xs := by
  conv_lhs => rw [afterLastDashSpace.eq_def]
  split
  · rename_i heq
    exact absurd heq (by simp)
  · rename_i rest heq
    injection heq with e1 e2
    subst e1
    subst e2
    rw [if_pos ⟨rfl, rfl⟩]
    rfl
  · rename_i s0 hd tl hfall heq
    injection heq with e1 e2
    subst e1
    subst e2
    rw [if_neg]
    rintro ⟨rfl, hh⟩
    cases xs with
    | nil => simp at hh
    | cons y ys =>
      simp only [List.head?_cons, Option.some_inj] at hh
      exact hfall ys rfl (by rw [hh])

theorem afterLDS_sound : ∀ {s c : Str}, afterLastDashSpace s = some c →
    ∃ pre, s = pre ++ '-' :: ' ' :: c := by
  intro s
  induction s with
  | nil => intro c h; simp [afterLastDashSpace] at h
  | cons x xs ih =>
    intro c h
    rw [afterLDS_cons] at h
    by_cases hx : x = '-' ∧ xs.head? = some ' '
    · rw [if_pos hx] at h
      obtain ⟨rfl, hx2⟩ := hx
      cases xs with
      | nil => simp at hx2
      | cons y ys =>
        simp only [List.head?_cons, Option.some_inj] at hx2
        subst hx2
        simp only [List.tail_cons] at h
        cases hys : afterLastDashSpace ys with
        | none =>
          rw [hys] at h
          simp only [Option.getD_none, Option.some_inj] at h
          exact ⟨[], by rw [h]; rfl⟩
        | some c' =>
          rw [hys] at h
          simp only [Option.getD_some, Option.some_inj] at h
          subst h
          have hys' : afterLastDashSpace (' ' :: ys) = some c' := by
            rw [afterLDS_cons, if_neg (by simp)]
            exact hys
          obtain ⟨pre, hpre⟩ := ih hys'
          exact ⟨'-' :: pre, by rw [hpre]; rfl⟩
    · rw [if_neg hx] at h
      obtain ⟨pre, hpre⟩ := ih h
      exact ⟨x :: pre, by rw [hpre]; rfl⟩

/-! ## Lemmas about the timestamp matchers -/

theorem matchMsgTs_complete {ts : Str} (rest : Str) (h : tsShapeMsg ts = true) :
    matchMsgTs (ts ++ rest) = some (ts, rest) := by
  unfold tsShapeMsg at h
  split at h
  · simp only [List.cons_append, List.nil_append, matchMsgTs]
    rw [if_pos h]
  · simp at h

theorem matchRawTs_complete {ts : Str} (rest : Str) (h : tsShapeRaw ts = true) :
    matchRawTs (ts ++ rest) = some (ts, rest) := by
  unfold tsShapeRaw at h
  split at h
  · simp only [List.cons_append, List.nil_append, matchRawTs]
    rw [if_pos h]
  · simp at h

theorem matchRawTs_of_msgShape {ts : Str} (rest : Str) (h : tsShapeMsg ts = true) :
    matchRawTs (ts ++ rest) = none := by
  unfold tsShapeMsg at h
  split at h
  · simp only [List.cons_append, List.nil_append]
    rw [matchRawTs.eq_def]
    split
    · rename_i heq
      simp at heq
    · rfl
  · simp at h

theorem matchMsgTs_of_rawShape {ts : Str} (rest : Str) (h : tsShapeRaw ts = true) :
    matchMsgTs (ts ++ rest) = none := by
  unfold tsShapeRaw at h
  split at h
  · simp only [List.cons_append, List.nil_append]
    rw [matchMsgTs.eq_def]
    split
    · rename_i heq
      simp at heq
    · rfl
  · simp at h

theorem matchMsgTs_sound : ∀ {line ts rest : Str}, matchMsgTs line = some (ts, rest) →
    line = ts ++ rest ∧ tsShapeMsg ts = true := by
  intro line ts rest h
  unfold matchMsgTs at h
  split at h
  · split at h
    · rename_i hc
      simp only [Option.some_inj, Prod.mk.injEq] at h
      obtain ⟨rfl, rfl⟩ := h
      exact ⟨rfl, hc⟩
    · cases h
  · cases h

theorem matchRawTs_sound : ∀ {line ts rest : Str}, matchRawTs line = some (ts, rest) →
    line = ts ++ rest ∧ tsShapeRaw ts = true := by
  intro line ts rest h
  unfold matchRawTs at h
  split at h
  · split at h
    · rename_i hc
      simp only [Option.some_inj, Prod.mk.injEq] at h
      obtain ⟨rfl, rfl⟩ := h
      exact ⟨rfl, hc⟩
    · cases h
  · cases h

/-! ## Lemmas about `rstrip` -/

theorem rstrip_eq_rdropWhile (l : Str) : rstrip l = List.rdropWhile isPySpace l := rfl

theorem length_rstrip_le (l : Str) : (rstrip l).length ≤ l.length := by
  unfold rstrip
  rw [List.length_reverse]
  exact Nat.le_trans (List.Sublist.length_le (List.dropWhile_sublist _))
    (Nat.le_of_eq (List.length_reverse _))

theorem rstrip_append_allspace {t : Str} (s : Str) (ht : ∀ x ∈ t, isPySpace x = true) :
    rstrip (s ++ ' ' :: t) = rstrip s := by
  unfold rstrip
  rw [List.reverse_append, List.reverse_cons, List.append_assoc,
    ← List.append_assoc t.reverse, List.dropWhile_append_of_pos]
  intro a ha
  rcases List.mem_append.mp ha with ha | ha
  · exact ht a (List.mem_reverse.mp ha)
  · simp only [List.mem_singleton] at ha
    subst ha
    rfl

theorem allspace_of_rstrip_nil {c : Str} (h : rstrip c = []) : ∀ x ∈ c, isPySpace x = true := by
  unfold rstrip at h
  rw [List.reverse_eq_nil_iff, List.dropWhile_eq_nil_iff] at h
  intro x hx
  exact h x (List.mem_reverse.mpr hx)

/-! ## Computation lemmas for `parse_line` and `from_line` -/

theorem primaryAfterTs_eq {a : Str} (c : Str) (h : containsCS a = false) :
    primaryAfterTs (' ' :: '-' :: ' ' :: (a ++ ':' :: ' ' :: c)) = some (a, c) := by
  unfold primaryAfterTs
  exact splitCS_complete c h

theorem primaryAfterTs_none {rest : Str} (h : containsCS rest = false) :
    primaryAfterTs rest = none := by
  unfold primaryAfterTs
  split
  · rename_i tail
    exact splitCS_none (containsCS_tail (containsCS_tail (containsCS_tail h)))
  · rfl

theorem primaryMsg_eq {ts a : Str} (c : Str)
    (hts : tsShapeMsg ts = true) (ha : containsCS a = false) :
    primaryMsg (ts ++ ' ' :: '-' :: ' ' :: (a ++ ':' :: ' ' :: c)) = some (ts, a, c) := by
  unfold primaryMsg
  rw [matchMsgTs_complete _ hts]
  simp only [Option.some_bind, primaryAfterTs_eq c ha, Option.map_some']

theorem primaryRaw_eq {ts a : Str} (c : Str)
    (hts : tsShapeRaw ts = true) (ha : containsCS a = false) :
    primaryRaw (ts ++ ' ' :: '-' :: ' ' :: (a ++ ':' :: ' ' :: c)) = some (ts, a, c) := by
  unfold primaryRaw
  rw [matchRawTs_complete _ hts]
  simp only [Option.some_bind, primaryAfterTs_eq c ha, Option.map_some']

theorem parse_line_primary_msg {ts a : Str} (c : Str) (df : Bool)
    (hts : tsShapeMsg ts = true) (ha : containsCS a = false) :
    parse_line (ts ++ ' ' :: '-' :: ' ' :: (a ++ ':' :: ' ' :: c)) df
      = (parse_date ts df).map fun t => (t, a, rstrip c) := by
  unfold parse_line
  rw [primaryMsg_eq c hts ha]
  rfl

theorem parse_line_primary_raw {ts a : Str} (c : Str) (df : Bool)
    (hts : tsShapeRaw ts = true) (ha : containsCS a = false) :
    parse_line (ts ++ ' ' :: '-' :: ' ' :: (a ++ ':' :: ' ' :: c)) df
      = (parse_date ts df).map fun t => (t, a, rstrip c) := by
  unfold parse_line
  have hm : primaryMsg (ts ++ ' ' :: '-' :: ' ' :: (a ++ ':' :: ' ' :: c)) = none := by
    unfold primaryMsg
    rw [matchMsgTs_of_rawShape _ hts]
    rfl
  rw [hm, primaryRaw_eq c hts ha]
  rfl

theorem parse_line_fallback_msg {ts rest c : Str} (df : Bool)
    (hts : tsShapeMsg ts = true) (hcs : containsCS rest = false)
    (hals : afterLastDashSpace rest = some c) :
    parse_line (ts ++ rest) df = (parse_date ts df).map fun t => (t, sysAuthor, rstrip c) := by
  unfold parse_line
  have hm : primaryMsg (ts ++ rest) = none := by
    unfold primaryMsg
    rw [matchMsgTs_complete _ hts]
    simp only [Option.some_bind, primaryAfterTs_none hcs, Option.map_none']
  have hr : primaryRaw (ts ++ rest) = none := by
    unfold primaryRaw
    rw [matchRawTs_of_msgShape _ hts]
    rfl
  have hf : fallbackMsg (ts ++ rest) = some (ts, c) := by
    unfold fallbackMsg
    rw [matchMsgTs_complete _ hts]
    simp only [Option.some_bind, hals, Option.map_some']
  rw [hm, hr, hf]
  rfl

theorem parse_line_fallback_raw {ts rest c : Str} (df : Bool)
    (hts : tsShapeRaw ts = true) (hcs : containsCS rest = false)
    (hals : afterLastDashSpace rest = some c) :
    parse_line (ts ++ rest) df = (parse_date ts df).map fun t => (t, sysAuthor, rstrip c) := by
  unfold parse_line
  have hm : primaryMsg (ts ++ rest) = none := by
    unfold primaryMsg
    rw [matchMsgTs_of_rawShape _ hts]
    rfl
  have hr : primaryRaw (ts ++ rest) = none := by
    unfold primaryRaw
    rw [matchRawTs_complete _ hts]
    simp only [Option.some_bind, primaryAfterTs_none hcs, Option.map_none']
  have hfm : fallbackMsg (ts ++ rest) = none := by
    unfold fallbackMsg
    rw [matchMsgTs_of_rawShape _ hts]
    rfl
  have hf : fallbackRaw (ts ++ rest) = some (ts, c) := by
    unfold fallbackRaw
    rw [matchRawTs_complete _ hts]
    simp only [Option.some_bind, hals, Option.map_some']
  rw [hm, hr, hfm, hf]
  rfl

theorem parse_line_eq_none {line : Str} (df : Bool)
    (h1 : primaryMsg line = none) (h2 : primaryRaw line = none)
    (h3 : fallbackMsg line = none) (h4 : fallbackRaw line = none) :
    parse_line line df = none := by
  unfold parse_line
  rw [h1, h2, h3, h4]
  rfl

theorem parse_line_none_of_primaryMsg_date {line ts a c : Str} {df : Bool}
    (h : primaryMsg line = some (ts, a, c)) (hd : parse_date ts df = none) :
    parse_line line df = none := by
  unfold parse_line
  rw [h]
  show (parse_date ts df).map _ = none
  rw [hd]
  rfl

theorem parse_line_none_of_primaryRaw_date {line ts a c : Str} {df : Bool}
    (h0 : primaryMsg line = none) (h : primaryRaw line = some (ts, a, c))
    (hd : parse_date ts df = none) :
    parse_line line df = none := by
  unfold parse_line
  rw [h0, h]
  show (parse_date ts df).map _ = none
  rw [hd]
  rfl

theorem parse_line_none_of_fallbackMsg_date {line ts c : Str} {df : Bool}
    (h0 : primaryMsg line = none) (h1 : primaryRaw line = none)
    (h : fallbackMsg line = some (ts, c)) (hd : parse_date ts df = none) :
    parse_line line df = none := by
  unfold parse_line
  rw [h0, h1, h]
  show (parse_date ts df).map _ = none
  rw [hd]
  rfl

theorem parse_line_none_of_fallbackRaw_date {line ts c : Str} {df : Bool}
    (h0 : primaryMsg line = none) (h1 : primaryRaw line = none)
    (h2 : fallbackMsg line = none) (h : fallbackRaw line = some (ts, c))
    (hd : parse_date ts df = none) :
    parse_line line df = none := by
  unfold parse_line
  rw [h0, h1, h2, h]
  show (parse_date ts df).map _ = none
  rw [hd]
  rfl

theorem from_line_ok {line : Str} {df : Bool} {t : DateTime} {a c : Str}
    (h : parse_line line df = some (t, a, c)) :
    from_line line df = .ok ⟨t, a, c⟩ := by
  unfold from_line
  rw [h]

theorem from_line_error {line : Str} {df : Bool} (h : parse_line line df = none) :
    from_line line df = .error ⟨line, line.length⟩ := by
  unfold from_line
  rw [h]

/-! ## Lemmas about digit rendering and the stringified round trip -/

theorem digitChar_toNat (n : Nat) : (digitChar n).toNat = 48 + n % 10 := by
  have h : n % 10 < 10 := Nat.mod_lt _ (by norm_num)
  unfold digitChar
  generalize n % 10 = k at *
  interval_cases k <;> decide

theorem digitChar_isDigit (n : Nat) : (digitChar n).isDigit = true := by
  have h : n % 10 < 10 := Nat.mod_lt _ (by norm_num)
  unfold digitChar
  generalize n % 10 = k at *
  interval_cases k <;> decide

theorem le_daysInMonth (y m : Nat) : 28 ≤ daysInMonth y m := by
  unfold daysInMonth
  split_ifs <;> omega

theorem tsShapeMsg_fmt (t : DateTime) : tsShapeMsg (fmtDateTime t) = true := by
  simp only [fmtDateTime, pad4, pad2, List.cons_append, List.nil_append]
  simp [tsShapeMsg, digitChar_isDigit]

theorem digitChar_toNat_sub (k : Nat) : (digitChar k).toNat - 48 = k % 10 := by
  rw [digitChar_toNat]
  omega

set_option maxHeartbeats 1000000 in
theorem parse_date_fmt {t : DateTime} (df : Bool) (hv : validDateTime t = true) :
    parse_date (fmtDateTime t) df = some (swapTime df t) := by
  unfold validDateTime at hv
  rw [decide_eq_true_iff] at hv
  obtain ⟨h1, h2, h3, h4, h5, h6, h7, h8, h9⟩ := hv
  have hd6 : t.day ≤ 31 :=
    Nat.le_trans h6 (by unfold daysInMonth; split_ifs <;> omega)
  unfold parse_date
  rw [if_pos (tsShapeMsg_fmt t)]
  rw [show digAt (fmtDateTime t) 0 = (digitChar (t.year / 1000)).toNat - 48 from rfl,
    show digAt (fmtDateTime t) 1 = (digitChar (t.year / 100)).toNat - 48 from rfl,
    show digAt (fmtDateTime t) 2 = (digitChar (t.year / 10)).toNat - 48 from rfl,
    show digAt (fmtDateTime t) 3 = (digitChar t.year).toNat - 48 from rfl,
    show digAt (fmtDateTime t) 5 = (digitChar (t.month / 10)).toNat - 48 from rfl,
    show digAt (fmtDateTime t) 6 = (digitChar t.month).toNat - 48 from rfl,
    show digAt (fmtDateTime t) 8 = (digitChar (t.day / 10)).toNat - 48 from rfl,
    show digAt (fmtDateTime t) 9 = (digitChar t.day).toNat - 48 from rfl,
    show digAt (fmtDateTime t) 11 = (digitChar (t.hour / 10)).toNat - 48 from rfl,
    show digAt (fmtDateTime t) 12 = (digitChar t.hour).toNat - 48 from rfl,
    show digAt (fmtDateTime t) 14 = (digitChar (t.minute / 10)).toNat - 48 from rfl,
    show digAt (fmtDateTime t) 15 = (digitChar t.minute).toNat - 48 from rfl,
    show digAt (fmtDateTime t) 17 = (digitChar (t.second / 10)).toNat - 48 from rfl,
    show digAt (fmtDateTime t) 18 = (digitChar t.second).toNat - 48 from rfl]
  simp only [digitChar_toNat_sub]
  rw [show 1000 * (t.year / 1000 % 10) + 100 * (t.year / 100 % 10) + 10 * (t.year / 10 % 10)
        + t.year % 10 = t.year from by omega,
    show 10 * (t.month / 10 % 10) + t.month % 10 = t.month from by omega,
    show 10 * (t.day / 10 % 10) + t.day % 10 = t.day from by omega,
    show 10 * (t.hour / 10 % 10) + t.hour % 10 = t.hour from by omega,
    show 10 * (t.minute / 10 % 10) + t.minute % 10 = t.minute from by omega,
    show 10 * (t.second / 10 % 10) + t.second % 10 = t.second from by omega]
  unfold resolveMsg swapTime
  by_cases hdf : df = true ∧ t.day ≤ 12
  · rw [if_pos hdf, if_pos (by simpa using hdf)]
    unfold mkDateTime
    rw [if_pos]
    exact ⟨h1, h2, h5, hdf.2, h3,
      Nat.le_trans h4 (Nat.le_trans (by norm_num) (le_daysInMonth t.year t.day)), h7, h8, h9⟩
  · rw [if_neg hdf, if_neg (by simpa using hdf)]
    unfold mkDateTime
    rw [if_pos ⟨h1, h2, h3, h4, h5, h6, h7, h8, h9⟩]

/-! ## Lemmas about reassembly -/

theorem is_new_message_blank : is_new_message ['\n'] = false := rfl

theorem rstrip_blank : rstrip ['\n'] = [] := rfl

theorem buildAux_blank_cons (m : Str) (rest ls : List Str) :
    buildAux (m :: rest) (['\n'] :: ls) = buildAux ((m ++ [' ']) :: rest) ls := rfl

theorem buildAux_blank_nil (ls : List Str) : buildAux [] (['\n'] :: ls) = none := rfl

theorem build_messages_not_new {l : Str} (ls : List Str) (h : is_new_message l = false) :
    build_messages (l :: ls) = none := by
  unfold build_messages buildAux
  rw [h]
  rfl

theorem buildAux_new_step {l : Str} (acc : List Str) (ls : List Str)
    (h : is_new_message l = true) :
    buildAux acc (l :: ls) = buildAux (rstrip l :: acc) ls := by
  have e : buildAux acc (l :: ls)
      = (if is_new_message l = true then buildAux (rstrip l :: acc) ls
         else match acc with
           | [] => none
           | m :: rest => buildAux ((m ++ ' ' :: rstrip l) :: rest) ls) := rfl
  rw [e, h]
  simp

theorem buildAux_cont_step {l : Str} (m : Str) (acc : List Str) (ls : List Str)
    (h : is_new_message l = false) :
    buildAux (m :: acc) (l :: ls) = buildAux ((m ++ ' ' :: rstrip l) :: acc) ls := by
  have e : buildAux (m :: acc) (l :: ls)
      = (if is_new_message l = true then buildAux (rstrip l :: m :: acc) ls
         else match m :: acc with
           | [] => none
           | m :: rest => buildAux ((m ++ ' ' :: rstrip l) :: rest) ls) := rfl
  rw [e, h]
  rfl

theorem buildAux_chunk : ∀ (ls : List Str) (m : Str) (acc : List Str),
    buildAux (m :: acc) ls
      = buildAux (((ls.takeWhile fun x => !is_new_message x).foldl
          (fun a c => a ++ ' ' :: rstrip c) m) :: acc)
          (ls.dropWhile fun x => !is_new_message x) := by
  intro ls
  induction ls with
  | nil => intro m acc; rfl
  | cons l ls ih =>
    intro m acc
    rw [List.takeWhile_cons, List.dropWhile_cons]
    cases hl : is_new_message l with
    | true => simp [hl]
    | false =>
      simp only [hl, Bool.not_false, if_true, List.foldl_cons]
      rw [buildAux_cont_step m acc ls hl, ih]

theorem dropWhile_head_new (ls : List Str) :
    (ls.dropWhile fun x => !is_new_message x) = []
      ∨ ∃ h t, (ls.dropWhile fun x => !is_new_message x) = h :: t ∧ is_new_message h = true := by
  cases hd : ls.dropWhile (fun x => !is_new_message x) with
  | nil => exact Or.inl rfl
  | cons h t =>
    refine Or.inr ⟨h, t, rfl, ?_⟩
    have h2 := List.head?_dropWhile_not (fun x => !is_new_message x) ls
    rw [hd] at h2
    simp only [List.head?_cons] at h2
    simpa using h2

theorem reassemble_new {l : Str} (ls : List Str) (h : is_new_message l = true) :
    reassemble (l :: ls) = (reassemble (ls.dropWhile fun x => !is_new_message x)).map
      (fun r => joinGroup l (ls.takeWhile fun x => !is_new_message x) :: r) := by
  rw [reassemble]
  rw [h]
  rfl

theorem reassemble_not_new {l : Str} (ls : List Str) (h : is_new_message l = false) :
    reassemble (l :: ls) = none := by
  rw [reassemble]
  rw [h]
  rfl

theorem reassemble_nil : reassemble [] = some [] := by
  rw [reassemble]

theorem buildAux_reassemble : ∀ (n : Nat) (ls : List Str), ls.length ≤ n → ∀ (acc : List Str),
    (ls = [] ∨ ∃ h t, ls = h :: t ∧ is_new_message h = true) →
    buildAux acc ls = (reassemble ls).map (fun r => acc.reverse ++ r) := by
  intro n
  induction n with
  | zero =>
    intro ls hlen acc hh
    have : ls = [] := List.length_eq_zero.mp (Nat.le_zero.mp hlen)
    subst this
    simp [buildAux, reassemble_nil]
  | succ n ih =>
    intro ls hlen acc hh
    rcases hh with rfl | ⟨h, t, rfl, hnew⟩
    · simp [buildAux, reassemble_nil]
    · rw [buildAux_new_step acc t hnew, buildAux_chunk, reassemble_new t hnew]
      have hlen' : (t.dropWhile fun x => !is_new_message x).length ≤ n := by
        have h1 : (t.dropWhile fun x => !is_new_message x).length ≤ t.length :=
          List.Sublist.length_le (List.dropWhile_sublist _)
        have h2 : t.length ≤ n := by
          simpa [Nat.succ_le_succ_iff] using hlen
        omega
      rw [ih _ hlen' _ (dropWhile_head_new t)]
      cases hr : reassemble (t.dropWhile fun x => !is_new_message x) with
      | none => rfl
      | some r =>
        simp only [Option.map_some', List.reverse_cons, List.append_assoc]
        rfl

theorem build_eq_reassemble (lines : List Str) : build_messages lines = reassemble lines := by
  cases lines with
  | nil =>
    rw [reassemble_nil]
    rfl
  | cons l ls =>
    cases hl : is_new_message l with
    | false => rw [build_messages_not_new ls hl, reassemble_not_new ls hl]
    | true =>
      unfold build_messages
      rw [buildAux_reassemble (l :: ls).length (l :: ls) (Nat.le_refl _) []
        (Or.inr ⟨l, ls, rfl, hl⟩)]
      cases reassemble (l :: ls) <;> simp

/-! ## Lemmas about `Chat` construction -/

theorem chatMk_eq_some : ∀ {lines : List Str} {df : Bool} {c : Chat},
    chatMk lines df = some c →
    lines.isEmpty = false ∧ ∃ logical msgs, build_messages lines = some logical ∧
      parse_messages logical df = some msgs ∧
      c = ⟨lines, df, msgs, (msgs.map Message.author).toFinset⟩ := by
  intro lines df c h
  unfold chatMk at h
  by_cases he : lines.isEmpty
  · rw [if_pos he] at h
    cases h
  · rw [if_neg he] at h
    cases hb : build_messages lines with
    | none => rw [hb] at h; cases h
    | some logical =>
      rw [hb] at h
      simp only [Option.some_bind] at h
      cases hp : parse_messages logical df with
      | none => rw [hp] at h; cases h
      | some msgs =>
        rw [hp] at h
        simp only [Option.map_some'] at h
        cases Option.some.inj h
        exact ⟨Bool.eq_false_iff.mpr he, logical, msgs, rfl, hp, rfl⟩

theorem chatMk_eq {lines : List Str} {df : Bool} {logical msgs}
    (hne : lines.isEmpty = false)
    (hb : build_messages lines = some logical)
    (hp : parse_messages logical df = some msgs) :
    chatMk lines df = some ⟨lines, df, msgs, (msgs.map Message.author).toFinset⟩ := by
  unfold chatMk
  rw [if_neg (by simp [hne]), hb]
  simp only [Option.some_bind]
  rw [hp]
  rfl

theorem chatMk_messages {lines : List Str} {df : Bool} {c : Chat}
    (h : chatMk lines df = some c) :
    c.participants = (c.messages.map Message.author).toFinset := by
  obtain ⟨-, -, -, -, -, rfl⟩ := chatMk_eq_some h
  rfl

theorem chatMk_day_first {lines : List Str} {df : Bool} {c : Chat}
    (h : chatMk lines df = some c) : c.day_first = df := by
  obtain ⟨-, -, -, -, -, rfl⟩ := chatMk_eq_some h
  rfl

theorem chatMk_none_of_build {lines : List Str} {df : Bool}
    (h : build_messages lines = none) : chatMk lines df = none := by
  unfold chatMk
  by_cases he : lines.isEmpty
  · rw [if_pos he]
  · rw [if_neg he, h]
    rfl

theorem parse_messages_append (l1 l2 : List Str) (df : Bool) :
    parse_messages (l1 ++ l2) df
      = (parse_messages l1 df).bind fun m1 => (parse_messages l2 df).map fun m2 => m1 ++ m2 := by
  unfold parse_messages
  rw [List.filter_append, List.mapM_append]
  cases (l1.filter fun l => l != ['\n']).mapM (fun l => (from_line l df).toOption) with
  | none => rfl
  | some m1 =>
    cases (l2.filter fun l => l != ['\n']).mapM (fun l => (from_line l df).toOption) with
    | none => rfl
    | some m2 => rfl

theorem pySlice_middle (pre mid post : List Str) :
    pySlice pre.length (pre.length + mid.length) (pre ++ mid ++ post) = mid := by
  unfold pySlice
  rw [List.append_assoc, List.drop_left, Nat.add_sub_cancel_left, List.take_left]

/-! ## Splitting reassembly along group boundaries -/

theorem reassemble_append : ∀ (n : Nat) (xs : List Str), xs.length ≤ n → ∀ (ys : List Str),
    (ys = [] ∨ ∃ h t, ys = h :: t ∧ is_new_message h = true) →
    reassemble (xs ++ ys)
      = (reassemble xs).bind fun rx => (reassemble ys).map fun ry => rx ++ ry := by
  intro n
  induction n with
  | zero =>
    intro xs hlen ys hy
    have : xs = [] := List.length_eq_zero.mp (Nat.le_zero.mp hlen)
    subst this
    rw [List.nil_append, reassemble_nil]
    cases reassemble ys <;> simp
  | succ n ih =>
    intro xs hlen ys hy
    cases xs with
    | nil =>
      rw [List.nil_append, reassemble_nil]
      cases reassemble ys <;> simp
    | cons x xt =>
      have hxt : xt.length ≤ n := by simpa [Nat.succ_le_succ_iff] using hlen
      cases hx : is_new_message x with
      | false =>
        rw [List.cons_append, reassemble_not_new _ hx, reassemble_not_new _ hx]
        rfl
      | true =>
        rw [List.cons_append, reassemble_new _ hx, reassemble_new _ hx]
        cases hd : xt.dropWhile (fun c => !is_new_message c) with
        | nil =>
          have htw : xt.takeWhile (fun c => !is_new_message c) = xt := by
            have hsplit := List.takeWhile_append_dropWhile (fun c => !is_new_message c) xt
            rw [hd, List.append_nil] at hsplit
            exact hsplit
          have hall : ∀ c ∈ xt, (fun c => !is_new_message c) c = true := by
            intro c hc
            rw [← htw] at hc
            exact @List.mem_takeWhile_imp _ (fun c => !is_new_message c) xt c hc
          rw [List.takeWhile_append_of_pos hall, List.dropWhile_append_of_pos hall, htw]
          rcases hy with rfl | ⟨h, t, rfl, hnew⟩
          · simp [reassemble_nil, joinGroup]
          · have hth : (h :: t).takeWhile (fun c => !is_new_message c) = [] := by
              rw [List.takeWhile_cons_of_neg]
              simp [hnew]
            have hdh : (h :: t).dropWhile (fun c => !is_new_message c) = h :: t := by
              rw [List.dropWhile_cons_of_neg]
              simp [hnew]
            rw [hth, hdh, List.append_nil, reassemble_nil]
            cases reassemble (h :: t) <;> simp
        | cons d dt =>
          have hlt : ¬ ((xt.takeWhile fun c => !is_new_message c).length = xt.length) := by
            intro hcon
            have hsplit := List.takeWhile_append_dropWhile (fun c => !is_new_message c) xt
            have hlensum : (xt.takeWhile fun c => !is_new_message c).length
                + (xt.dropWhile fun c => !is_new_message c).length = xt.length := by
              rw [← List.length_append, hsplit]
            rw [hd] at hlensum
            simp only [List.length_cons] at hlensum
            omega
          have hne : ¬ ((xt.dropWhile fun c => !is_new_message c).isEmpty = true) := by
            rw [hd]
            simp
          rw [List.takeWhile_append, if_neg hlt, List.dropWhile_append, if_neg hne, hd]
          have hdnew : is_new_message d = true := by
            rcases dropWhile_head_new xt with h0 | ⟨h', t', heq, hn⟩
            · rw [hd] at h0; cases h0
            · rw [hd] at heq
              injection heq with e1 e2
              rw [← e1] at hn
              exact hn
          have hlen2 : (d :: dt).length ≤ n := by
            have hsub : (d :: dt).length ≤ xt.length := by
              rw [← hd]
              exact List.Sublist.length_le (List.dropWhile_sublist _)
            omega
          rw [ih (d :: dt) hlen2 ys hy, reassemble_new dt hdnew]
          cases r1 : reassemble (dt.dropWhile fun c => !is_new_message c) <;>
            cases r2 : reassemble ys <;> simp

/-! ## Inversion lemmas for the primary patterns and `parse_line` -/

theorem option_orElse_eq_some {α : Type} {x y : Option α} {v : α} (h : (x <|> y) = some v) :
    x = some v ∨ (x = none ∧ y = some v) := by
  cases x with
  | some a => left; simpa using h
  | none => right; exact ⟨rfl, by simpa using h⟩

theorem primaryMsg_sound : ∀ {line ts a c : Str}, primaryMsg line = some (ts, a, c) →
    line = ts ++ ' ' :: '-' :: ' ' :: (a ++ ':' :: ' ' :: c)
      ∧ containsCS a = false ∧ tsShapeMsg ts = true := by
  intro line ts a c h
  unfold primaryMsg at h
  cases hm : matchMsgTs line with
  | none => rw [hm] at h; cases h
  | some p =>
    obtain ⟨ts0, rest⟩ := p
    rw [hm] at h
    simp only [Option.some_bind] at h
    cases hp : primaryAfterTs rest with
    | none => rw [hp] at h; cases h
    | some q =>
      obtain ⟨a0, c0⟩ := q
      rw [hp] at h
      simp only [Option.map_some', Option.some_inj, Prod.mk.injEq] at h
      obtain ⟨rfl, rfl, rfl⟩ := h
      obtain ⟨hline, hshape⟩ := matchMsgTs_sound hm
      unfold primaryAfterTs at hp
      split at hp
      · rename_i tail
        obtain ⟨htail, hcs⟩ := splitCS_sound hp
        subst htail
        exact ⟨hline, hcs, hshape⟩
      · cases hp

theorem primaryRaw_sound : ∀ {line ts a c : Str}, primaryRaw line = some (ts, a, c) →
    line = ts ++ ' ' :: '-' :: ' ' :: (a ++ ':' :: ' ' :: c)
      ∧ containsCS a = false ∧ tsShapeRaw ts = true := by
  intro line ts a c h
  unfold primaryRaw at h
  cases hm : matchRawTs line with
  | none => rw [hm] at h; cases h
  | some p =>
    obtain ⟨ts0, rest⟩ := p
    rw [hm] at h
    simp only [Option.some_bind] at h
    cases hp : primaryAfterTs rest with
    | none => rw [hp] at h; cases h
    | some q =>
      obtain ⟨a0, c0⟩ := q
      rw [hp] at h
      simp only [Option.map_some', Option.some_inj, Prod.mk.injEq] at h
      obtain ⟨rfl, rfl, rfl⟩ := h
      obtain ⟨hline, hshape⟩ := matchRawTs_sound hm
      unfold primaryAfterTs at hp
      split at hp
      · rename_i tail
        obtain ⟨htail, hcs⟩ := splitCS_sound hp
        subst htail
        exact ⟨hline, hcs, hshape⟩
      · cases hp

theorem parse_line_ok_inv : ∀ {line : Str} {df : Bool} {t : DateTime} {a c : Str},
    parse_line line df = some (t, a, c) →
    a = sysAuthor
      ∨ ∃ ts c0, (primaryMsg line = some (ts, a, c0) ∨ primaryRaw line = some (ts, a, c0))
          ∧ c = rstrip c0 := by
  intro line df t a c h
  unfold parse_line at h
  rcases ho : (primaryMsg line <|> primaryRaw line) with _ | ⟨ts0, a0, c0⟩
  · rw [ho] at h
    rcases hf : (fallbackMsg line <|> fallbackRaw line) with _ | ⟨ts1, c1⟩
    · rw [hf] at h
      change (none : Option (DateTime × Str × Str)) = some (t, a, c) at h
      cases h
    · rw [hf] at h
      change ((parse_date ts1 df).map fun t => (t, sysAuthor, rstrip c1)) = some (t, a, c) at h
      cases hd : parse_date ts1 df with
      | none => rw [hd] at h; cases h
      | some t0 =>
        rw [hd] at h
        simp only [Option.map_some', Option.some_inj, Prod.mk.injEq] at h
        obtain ⟨rfl, rfl, rfl⟩ := h
        exact Or.inl rfl
  · rw [ho] at h
    change ((parse_date ts0 df).map fun t => (t, a0, rstrip c0)) = some (t, a, c) at h
    cases hd : parse_date ts0 df with
    | none => rw [hd] at h; cases h
    | some t0 =>
      rw [hd] at h
      simp only [Option.map_some', Option.some_inj, Prod.mk.injEq] at h
      obtain ⟨rfl, rfl, rfl⟩ := h
      rcases option_orElse_eq_some ho with h1 | ⟨h1, h2⟩
      · exact Or.inr ⟨ts0, c0, Or.inl h1, rfl⟩
      · exact Or.inr ⟨ts0, c0, Or.inr h2, rfl⟩

theorem from_line_ok_inv {line : Str} {df : Bool} {m : Message}
    (h : from_line line df = .ok m) :
    parse_line line df = some (m.time, m.author, m.content) := by
  unfold from_line at h
  cases hp : parse_line line df with
  | none => rw [hp] at h; cases h
  | some p =>
    obtain ⟨t, a, c⟩ := p
    rw [hp] at h
    cases h
    rfl

/-! ## The claims -/

/-- Claim C1: for every logical line that starts with one of the two recognized
timestamp shapes and has the `" - <author>: <content>"` structure (the author
segment containing no earlier `": "` delimiter, so it is the non-greedy match up
to the first `": "`), parsing returns a record whose time is the conversion of
the matched timestamp prefix, whose author is that segment verbatim, and whose
content is the remainder with trailing whitespace stripped; moreover the
stringified matcher and the raw matcher accept exactly their own shape, so the
two formats tried in order (stringified first) never compete. -/
theorem claim_c1 :
    (∀ (df : Bool) (ts a c : Str) (t : DateTime),
      (tsShapeMsg ts = true ∨ tsShapeRaw ts = true) →
      containsCS a = false →
      '\n' ∉ a → '\n' ∉ c →
      parse_date ts df = some t →
      from_line (ts ++ ' ' :: '-' :: ' ' :: (a ++ ':' :: ' ' :: c)) df
        = .ok ⟨t, a, rstrip c⟩)
    ∧ (∀ ts rest : Str, tsShapeMsg ts = true →
        matchMsgTs (ts ++ rest) = some (ts, rest) ∧ matchRawTs (ts ++ rest) = none)
    ∧ (∀ ts rest : Str, tsShapeRaw ts = true →
        matchRawTs (ts ++ rest) = some (ts, rest) ∧ matchMsgTs (ts ++ rest) = none) := by
  refine ⟨?_, ?_, ?_⟩
  · intro df ts a c t hts ha hna hnc hd
    rcases hts with hts | hts
    · exact from_line_ok (by rw [parse_line_primary_msg c df hts ha, hd]; rfl)
    · exact from_line_ok (by rw [parse_line_primary_raw c df hts ha, hd]; rfl)
  · intro ts rest hts
    exact ⟨matchMsgTs_complete rest hts, matchRawTs_of_msgShape rest hts⟩
  · intro ts rest hts
    exact ⟨matchRawTs_complete rest hts, matchMsgTs_of_rawShape rest hts⟩

/-- Witness for C1 at a concrete raw-format line. -/
theorem claim_c1_witness :
    from_line (("28/08/2020, 18:33").data ++ ' ' :: '-' :: ' '
        :: (("John").data ++ ':' :: ' ' :: ("hi there ").data)) true
      = .ok ⟨⟨2020, 8, 28, 18, 33, 0⟩, ("John").data, ("hi there").data⟩ :=
  claim_c1.1 true ("28/08/2020, 18:33").data ("John").data ("hi there ").data
    ⟨2020, 8, 28, 18, 33, 0⟩ (Or.inr (by decide)) (by decide) (by decide) (by decide) (by decide)

/-- Claim C2: reassembly scans lines in order, starting a new right-trimmed
logical line at each timestamp-prefixed line and appending every other line,
right-trimmed and space-separated, to the most recent one (stated as equality
between the accumulator implementation `build_messages` and the structural
grouping `reassemble`), and the concrete three-line example produces exactly the
two expected logical lines. -/
theorem claim_c2 :
    (∀ lines : List Str, build_messages lines = reassemble lines)
    ∧ build_messages
        [("28/08/2020, 18:33 - John: line 1").data,
         ("continuation of line 1").data,
         ("28/08/2020, 18:33 - John: line 2").data]
      = some [("28/08/2020, 18:33 - John: line 1 continuation of line 1").data,
              ("28/08/2020, 18:33 - John: line 2").data] :=
  ⟨build_eq_reassemble, by decide⟩

/-- Claim C3 counterexample: a logical line matching the raw timestamp format with
no `": "` delimiter after it, but also with no `"- "` occurrence, makes parsing
raise a `ParsingError` instead of resolving the author to `_SYSTEM_`. -/
theorem claim_c3_counterexample :
    from_line ("01/02/2020, 10:00 hello").data true
      = .error ⟨("01/02/2020, 10:00 hello").data, 23⟩ := by decide

/-- Claim C3 as amended: for a right-trimmed logical line matching either
timestamp shape at its start, with no `": "` occurrence after the timestamp but
at least one `"- "` occurrence (and a convertible timestamp), parsing resolves
the author to the sentinel `_SYSTEM_` and the content to the right-stripped text
following the last `"- "` occurrence, and that content is non-empty; lines with
no `"- "` occurrence raise `ParsingError` instead (see the counterexample). -/
theorem claim_c3_amended :
    ∀ (df : Bool) (ts rest c : Str) (t : DateTime),
      (tsShapeMsg ts = true ∨ tsShapeRaw ts = true) →
      containsCS rest = false →
      afterLastDashSpace rest = some c →
      '\n' ∉ rest →
      rstrip (ts ++ rest) = ts ++ rest →
      parse_date ts df = some t →
      from_line (ts ++ rest) df = .ok ⟨t, sysAuthor, rstrip c⟩ ∧ rstrip c ≠ [] := by
  intro df ts rest c t hts hcs hals hnl hr hd
  constructor
  · rcases hts with hts | hts
    · exact from_line_ok (by rw [parse_line_fallback_msg df hts hcs hals, hd]; rfl)
    · exact from_line_ok (by rw [parse_line_fallback_raw df hts hcs hals, hd]; rfl)
  · intro hnil
    have hsp := allspace_of_rstrip_nil hnil
    obtain ⟨pre, hpre⟩ := afterLDS_sound hals
    have heq : ts ++ rest = (ts ++ (pre ++ ['-'])) ++ ' ' :: c := by
      rw [hpre]
      simp [List.append_assoc]
    have hrs := rstrip_append_allspace (ts ++ (pre ++ ['-'])) hsp
    rw [← heq, hr] at hrs
    have hlen1 : (rstrip (ts ++ (pre ++ ['-']))).length ≤ (ts ++ (pre ++ ['-'])).length :=
      length_rstrip_le _
    have hlen2 : (ts ++ rest).length = (ts ++ (pre ++ ['-'])).length + (c.length + 1) := by
      rw [heq]
      simp [List.length_append]
      omega
    have hlen3 : (ts ++ rest).length = (rstrip (ts ++ (pre ++ ['-']))).length :=
      congrArg List.length hrs
    omega

/-- Witness for the amended C3 at a concrete system-message line. -/
theorem claim_c3_amended_witness :
    from_line (("28/08/2020, 18:33").data ++ (" - X joined the group").data) true
        = .ok ⟨⟨2020, 8, 28, 18, 33, 0⟩, sysAuthor, ("X joined the group").data⟩
      ∧ rstrip ("X joined the group").data ≠ [] :=
  claim_c3_amended true ("28/08/2020, 18:33").data (" - X joined the group").data
    ("X joined the group").data ⟨2020, 8, 28, 18, 33, 0⟩
    (Or.inr (by decide)) (by decide) (by decide) (by decide) (by decide) (by decide)

/-- Claim C4: when no primary and no fallback pattern of either timestamp format
matches, and when a pattern did match but the matched timestamp text fails
date conversion, `Message.from_line` raises a `ParsingError` carrying the
offending line and its length, and no record is produced. -/
theorem claim_c4 :
    ∀ (line : Str) (df : Bool),
      ((primaryMsg line = none ∧ primaryRaw line = none ∧ fallbackMsg line = none
          ∧ fallbackRaw line = none) →
        from_line line df = .error ⟨line, line.length⟩)
      ∧ (∀ ts a c, primaryMsg line = some (ts, a, c) → parse_date ts df = none →
          from_line line df = .error ⟨line, line.length⟩)
      ∧ (∀ ts a c, primaryMsg line = none → primaryRaw line = some (ts, a, c) →
          parse_date ts df = none → from_line line df = .error ⟨line, line.length⟩)
      ∧ (∀ ts c, primaryMsg line = none → primaryRaw line = none →
          fallbackMsg line = some (ts, c) → parse_date ts df = none →
          from_line line df = .error ⟨line, line.length⟩)
      ∧ (∀ ts c, primaryMsg line = none → primaryRaw line = none → fallbackMsg line = none →
          fallbackRaw line = some (ts, c) → parse_date ts df = none →
          from_line line df = .error ⟨line, line.length⟩) := by
  intro line df
  refine ⟨?_, ?_, ?_, ?_, ?_⟩
  · rintro ⟨h1, h2, h3, h4⟩
    exact from_line_error (parse_line_eq_none df h1 h2 h3 h4)
  · intro ts a c h hd
    exact from_line_error (parse_line_none_of_primaryMsg_date h hd)
  · intro ts a c h0 h hd
    exact from_line_error (parse_line_none_of_primaryRaw_date h0 h hd)
  · intro ts c h0 h1 h hd
    exact from_line_error (parse_line_none_of_fallbackMsg_date h0 h1 h hd)
  · intro ts c h0 h1 h2 h hd
    exact from_line_error (parse_line_none_of_fallbackRaw_date h0 h1 h2 h hd)

/-- Witness for C4 at a line matching no pattern. -/
theorem claim_c4_witness :
    from_line ("hello").data true = .error ⟨("hello").data, 5⟩ :=
  (claim_c4 ("hello").data true).1 ⟨by decide, by decide, by decide, by decide⟩

/-- Claim C5 counterexample: the line `"28/08/2020, 18:33 - : hi"` parses
successfully into a record whose author is the empty string, which is neither
non-empty nor the sentinel `_SYSTEM_`. -/
theorem claim_c5_counterexample :
    from_line ("28/08/2020, 18:33 - : hi").data true
        = .ok ⟨⟨2020, 8, 28, 18, 33, 0⟩, [], ("hi").data⟩
      ∧ ¬ (([] : Str) ≠ [] ∨ ([] : Str) = sysAuthor) := by decide

/-- Claim C5 as amended: every record produced by a successful parse has an
author that is either the sentinel `_SYSTEM_` or the verbatim (possibly empty)
author segment of the line before the first `": "` delimiter; in particular the
author is non-empty whenever that segment is non-empty. -/
theorem claim_c5_amended :
    ∀ (line : Str) (df : Bool) (m : Message),
      from_line line df = .ok m →
      m.author = sysAuthor
        ∨ ∃ ts c0, line = ts ++ ' ' :: '-' :: ' ' :: (m.author ++ ':' :: ' ' :: c0)
            ∧ m.content = rstrip c0 ∧ containsCS m.author = false := by
  intro line df m h
  have hp := from_line_ok_inv h
  rcases parse_line_ok_inv hp with hs | ⟨ts, c0, hprim | hprim, hc⟩
  · exact Or.inl hs
  · obtain ⟨hline, hcs, -⟩ := primaryMsg_sound hprim
    exact Or.inr ⟨ts, c0, hline, hc, hcs⟩
  · obtain ⟨hline, hcs, -⟩ := primaryRaw_sound hprim
    exact Or.inr ⟨ts, c0, hline, hc, hcs⟩

/-- Witness for the amended C5. -/
theorem claim_c5_amended_witness :
    (⟨⟨2020, 8, 28, 18, 33, 0⟩, ("John").data, ("hi").data⟩ : Message).author = sysAuthor
      ∨ ∃ ts c0, ("28/08/2020, 18:33 - John: hi").data
            = ts ++ ' ' :: '-' :: ' '
              :: ((⟨⟨2020, 8, 28, 18, 33, 0⟩, ("John").data, ("hi").data⟩ : Message).author
                ++ ':' :: ' ' :: c0)
          ∧ (⟨⟨2020, 8, 28, 18, 33, 0⟩, ("John").data, ("hi").data⟩ : Message).content
              = rstrip c0
          ∧ containsCS (⟨⟨2020, 8, 28, 18, 33, 0⟩, ("John").data,
              ("hi").data⟩ : Message).author = false :=
  claim_c5_amended ("28/08/2020, 18:33 - John: hi").data true
    ⟨⟨2020, 8, 28, 18, 33, 0⟩, ("John").data, ("hi").data⟩ (by decide)

/-- Claim C6 counterexample: a blank line is not skipped by reassembly: it is
appended as a single space to the most recently started logical line, so the
logical lines differ from those of the blank-free sequence. -/
theorem claim_c6_counterexample :
    build_messages [("28/08/2020, 18:33 - John: hi").data, ['\n']]
        = some [("28/08/2020, 18:33 - John: hi ").data]
      ∧ build_messages
          ([("28/08/2020, 18:33 - John: hi").data, ['\n']].filter (fun l => l != ['\n']))
        = some [("28/08/2020, 18:33 - John: hi").data]
      ∧ ("28/08/2020, 18:33 - John: hi ").data ≠ ("28/08/2020, 18:33 - John: hi").data := by
  decide

/-- Claim C6 as amended: a line consisting solely of a newline character never
starts a new logical line; instead reassembly appends its right-trimmed (empty)
text, preceded by one separating space, to the most recently started logical
line, and it is a structural error when no logical line has been started. -/
theorem claim_c6_amended :
    is_new_message ['\n'] = false
      ∧ rstrip ['\n'] = []
      ∧ (∀ (m : Str) (rest ls : List Str),
          buildAux (m :: rest) (['\n'] :: ls) = buildAux ((m ++ [' ']) :: rest) ls)
      ∧ (∀ ls : List Str, buildAux [] (['\n'] :: ls) = none) :=
  ⟨is_new_message_blank, rstrip_blank, buildAux_blank_cons, buildAux_blank_nil⟩

/-- Claim C7: when the first non-blank raw line is not a new-message line,
reassembly fails (the model of the uncaught `IndexError`) and no `Chat` is
constructed, so the offending data is never silently dropped. -/
theorem claim_c7 :
    ∀ (lines : List Str) (df : Bool) (h0 : Str) (t0 : List Str),
      lines.dropWhile (fun l => l == ['\n']) = h0 :: t0 →
      is_new_message h0 = false →
      build_messages lines = none ∧ chatMk lines df = none := by
  intro lines df h0 t0 hdrop hnew
  cases lines with
  | nil => simp at hdrop
  | cons l ls =>
    have hbuild : build_messages (l :: ls) = none := by
      by_cases hl : l = ['\n']
      · exact build_messages_not_new ls (by rw [hl]; exact is_new_message_blank)
      · have hstep : List.dropWhile (fun l => l == ['\n']) (l :: ls) = l :: ls := by
          rw [List.dropWhile_cons]
          simp [hl]
        rw [hstep] at hdrop
        injection hdrop with e1 e2
        exact build_messages_not_new ls (by rw [e1]; exact hnew)
    exact ⟨hbuild, chatMk_none_of_build hbuild⟩

/-- Witness for C7. -/
theorem claim_c7_witness :
    build_messages [("hello").data] = none ∧ chatMk [("hello").data] true = none :=
  claim_c7 [("hello").data] true ("hello").data [] (by decide) (by decide)

/-- Claim C8 counterexample: a record parsed with `day_first=True` from
`"01/02/2020, 10:00 - John: hi"` carries the time 2020-02-01; re-parsing its
string form with the same flag yields 2020-01-02 (the `dateutil` day-first
transposition on `YYYY-MM-DD`), so the round trip is not an identity. -/
theorem claim_c8_counterexample :
    from_line ("01/02/2020, 10:00 - John: hi").data true
        = .ok ⟨⟨2020, 2, 1, 10, 0, 0⟩, ("John").data, ("hi").data⟩
      ∧ msgToStr ⟨⟨2020, 2, 1, 10, 0, 0⟩, ("John").data, ("hi").data⟩
        = ("2020-02-01 10:00:00 - John: hi").data
      ∧ from_line ("2020-02-01 10:00:00 - John: hi").data true
        = .ok ⟨⟨2020, 1, 2, 10, 0, 0⟩, ("John").data, ("hi").data⟩
      ∧ (⟨2020, 1, 2, 10, 0, 0⟩ : DateTime) ≠ ⟨2020, 2, 1, 10, 0, 0⟩ := by
  refine ⟨by decide, by decide, by decide, by decide⟩

/-- Claim C8 as amended: re-parsing a record's string form with the same
`day_first` flag always succeeds and preserves the author and content exactly;
the timestamp is preserved when `day_first` is false, or when the day component
exceeds twelve or equals the month; when `day_first` is true and the day is at
most twelve, the month and day come back transposed. -/
theorem claim_c8_amended :
    ∀ (m : Message) (df : Bool),
      validDateTime m.time = true →
      containsCS m.author = false →
      rstrip m.content = m.content →
      '\n' ∉ m.author → '\n' ∉ m.content →
      from_line (msgToStr m) df = .ok ⟨swapTime df m.time, m.author, m.content⟩
        ∧ ((df = false ∨ 12 < m.time.day ∨ m.time.day = m.time.month) →
            swapTime df m.time = m.time) := by
  intro m df hv ha hc hna hnc
  constructor
  · apply from_line_ok
    show parse_line (fmtDateTime m.time ++ ' ' :: '-' :: ' '
        :: (m.author ++ ':' :: ' ' :: m.content)) df = _
    rw [parse_line_primary_msg m.content df (tsShapeMsg_fmt m.time) ha, parse_date_fmt df hv]
    simp [hc]
  · intro hcond
    unfold swapTime
    rcases hcond with rfl | h12 | heq
    · rw [if_neg]
      rintro ⟨hfalse, -⟩
      cases hfalse
    · rw [if_neg]
      rintro ⟨-, hle⟩
      omega
    · obtain ⟨⟨y, mo, dy, hh, mi, ss⟩, a, cnt⟩ := m
      change dy = mo at heq
      subst heq
      show (if df = true ∧ dy ≤ 12 then (⟨y, dy, dy, hh, mi, ss⟩ : DateTime)
            else ⟨y, dy, dy, hh, mi, ss⟩) = ⟨y, dy, dy, hh, mi, ss⟩
      exact ite_self _

/-- Witness for the amended C8 at a record whose day exceeds twelve. -/
theorem claim_c8_amended_witness :
    from_line (msgToStr ⟨⟨2020, 8, 28, 18, 33, 0⟩, ("John").data, ("hi").data⟩) true
      = .ok ⟨⟨2020, 8, 28, 18, 33, 0⟩, ("John").data, ("hi").data⟩ :=
  (claim_c8_amended ⟨⟨2020, 8, 28, 18, 33, 0⟩, ("John").data, ("hi").data⟩ true
    (by decide) (by decide) (by decide) (by decide) (by decide)).1

/-- Claim C10: every `Chat` derived through the filter operators or slicing is
rebuilt with the constructor default `day_first = true` regardless of the
original flag; concretely, a chat built with `day_first = false` from the
ambiguous date `03/04/2021` carries 2021-03-04 while its one-line slice
re-parses to 2021-04-03. -/
theorem claim_c10 :
    (∀ (c : Chat) (v : Str) (c' : Chat), chatLshift c v = some c' → c'.day_first = true)
    ∧ (∀ (c : Chat) (v : Str) (c' : Chat), chatRshift c v = some c' → c'.day_first = true)
    ∧ (∀ (c : Chat) (vs : List Str) (c' : Chat), chatAndList c vs = some c' → c'.day_first = true)
    ∧ (∀ (c : Chat) (v : Str) (c' : Chat), chatAndStr c v = some c' → c'.day_first = true)
    ∧ (∀ (c : Chat) (vs : List Str) (c' : Chat), chatOrList c vs = some c' → c'.day_first = true)
    ∧ (∀ (c : Chat) (v : Str) (c' : Chat), chatOrStr c v = some c' → c'.day_first = true)
    ∧ (∀ (c : Chat) (a b : Nat) (c' : Chat), chatGetSlice c a b = some c' → c'.day_first = true)
    ∧ ((chatMk [("03/04/2021, 09:00 - John: hi").data] false).map
          (fun c => c.messages.map Message.time) = some [⟨2021, 3, 4, 9, 0, 0⟩]
        ∧ (chatMk [("03/04/2021, 09:00 - John: hi").data] false).bind
            (fun c => (chatGetSlice c 0 1).map fun cs => cs.messages.map Message.time)
          = some [⟨2021, 4, 3, 9, 0, 0⟩]
        ∧ (⟨2021, 3, 4, 9, 0, 0⟩ : DateTime) ≠ ⟨2021, 4, 3, 9, 0, 0⟩) := by
  exact ⟨fun c v c' h => chatMk_day_first h, fun c v c' h => chatMk_day_first h,
    fun c vs c' h => chatMk_day_first h, fun c v c' h => chatMk_day_first h,
    fun c vs c' h => chatMk_day_first h, fun c v c' h => chatMk_day_first h,
    fun c a b c' h => chatMk_day_first h, rfl, rfl, by decide⟩

/-- Witness for C10: slicing a concrete chat yields `day_first = true`. -/
theorem claim_c10_witness :
    (⟨[("28/08/2020, 18:33 - John: one").data], true,
      [⟨⟨2020, 8, 28, 18, 33, 0⟩, ("John").data, ("one").data⟩],
      (([⟨⟨2020, 8, 28, 18, 33, 0⟩, ("John").data, ("one").data⟩] : List Message).map
        Message.author).toFinset⟩ : Chat).day_first = true :=
  claim_c10.2.2.2.2.2.2.1
    ⟨[("28/08/2020, 18:33 - John: one").data], true,
      [⟨⟨2020, 8, 28, 18, 33, 0⟩, ("John").data, ("one").data⟩],
      (([⟨⟨2020, 8, 28, 18, 33, 0⟩, ("John").data, ("one").data⟩] : List Message).map
        Message.author).toFinset⟩ 0 1
    ⟨[("28/08/2020, 18:33 - John: one").data], true,
      [⟨⟨2020, 8, 28, 18, 33, 0⟩, ("John").data, ("one").data⟩],
      (([⟨⟨2020, 8, 28, 18, 33, 0⟩, ("John").data, ("one").data⟩] : List Message).map
        Message.author).toFinset⟩ rfl

/-- Claim C9 counterexample: slicing a parsed chat at a bound that falls inside a
multi-line message re-runs the pipeline on raw lines that start with a
continuation line, which fails structurally — no valid sub-collection is
produced. -/
theorem claim_c9_counterexample :
    ((chatMk [("28/08/2020, 18:33 - John: line 1").data, ("continuation").data] true).bind
        fun c => chatGetSlice c 1 2) = none
      ∧ (chatMk [("28/08/2020, 18:33 - John: line 1").data, ("continuation").data] true).isSome
        = true :=
  ⟨rfl, rfl⟩

/-- Claim C9 as amended: slicing re-runs the full parse pipeline on the selected
raw lines (with the constructor default `day_first = true`) and a single index
selects one record; for a chat built with the default `day_first = true`, a
non-empty slice that starts at a new-message line and ends at a message boundary
(or at the end) succeeds and returns exactly the corresponding contiguous run of
the original records, in order, with the participant set equal to the distinct
authors of that run; other slices can fail entirely (see the counterexample). -/
theorem claim_c9_amended :
    (∀ (c : Chat) (a b : Nat), chatGetSlice c a b = chatMk (pySlice a b c.raw_lines) true)
    ∧ (∀ (c : Chat) (i : Nat), chatGetIdx c i = c.messages.get? i)
    ∧ (∀ (pre mt post : List Str) (mh : Str) (c : Chat),
        chatMk (pre ++ (mh :: mt) ++ post) true = some c →
        is_new_message mh = true →
        (post = [] ∨ ∃ ph pt, post = ph :: pt ∧ is_new_message ph = true) →
        ∃ c' mpre mmid mpost,
          chatGetSlice c pre.length (pre.length + (mh :: mt).length) = some c'
          ∧ c.messages = mpre ++ mmid ++ mpost
          ∧ c'.messages = mmid
          ∧ c'.participants = (mmid.map Message.author).toFinset) := by
  refine ⟨fun c a b => rfl, fun c i => rfl, ?_⟩
  intro pre mt post mh c hmk hnew hpost
  obtain ⟨hne, logical, msgs, hb, hp, rfl⟩ := chatMk_eq_some hmk
  rw [build_eq_reassemble, List.append_assoc] at hb
  have hmidpost : ((mh :: mt) ++ post) = []
      ∨ ∃ h t, (mh :: mt) ++ post = h :: t ∧ is_new_message h = true :=
    Or.inr ⟨mh, mt ++ post, by simp, hnew⟩
  rw [reassemble_append pre.length pre (Nat.le_refl _) _ hmidpost] at hb
  cases hrpre : reassemble pre with
  | none => rw [hrpre] at hb; cases hb
  | some rpre =>
    rw [hrpre] at hb
    simp only [Option.some_bind] at hb
    rw [reassemble_append (mh :: mt).length (mh :: mt) (Nat.le_refl _) post hpost] at hb
    cases hrmid : reassemble (mh :: mt) with
    | none => rw [hrmid] at hb; simp at hb
    | some rmid =>
      rw [hrmid] at hb
      simp only [Option.some_bind] at hb
      cases hrpost : reassemble post with
      | none => rw [hrpost] at hb; simp at hb
      | some rpost =>
        rw [hrpost] at hb
        simp only [Option.map_some', Option.some_inj] at hb
        subst hb
        rw [parse_messages_append rpre (rmid ++ rpost) true] at hp
        cases hp1 : parse_messages rpre true with
        | none => rw [hp1] at hp; cases hp
        | some mpre =>
          rw [hp1] at hp
          simp only [Option.some_bind] at hp
          rw [parse_messages_append rmid rpost true] at hp
          cases hp2 : parse_messages rmid true with
          | none => rw [hp2] at hp; simp at hp
          | some mmid =>
            rw [hp2] at hp
            simp only [Option.some_bind] at hp
            cases hp3 : parse_messages rpost true with
            | none => rw [hp3] at hp; simp at hp
            | some mpost =>
              rw [hp3] at hp
              simp only [Option.map_some', Option.some_inj] at hp
              subst hp
              have hmk' : chatMk (mh :: mt) true
                  = some ⟨mh :: mt, true, mmid, (mmid.map Message.author).toFinset⟩ :=
                chatMk_eq (by simp) (by rw [build_eq_reassemble]; exact hrmid) hp2
              refine ⟨⟨mh :: mt, true, mmid, (mmid.map Message.author).toFinset⟩,
                mpre, mmid, mpost, ?_, ?_, rfl, rfl⟩
              · show chatMk (pySlice pre.length (pre.length + (mh :: mt).length)
                    (pre ++ (mh :: mt) ++ post)) true = _
                rw [pySlice_middle]
                exact hmk'
              · show mpre ++ (mmid ++ mpost) = mpre ++ mmid ++ mpost
                rw [List.append_assoc]

/-- Witness for the amended C9 at a three-line chat, slicing out the middle line. -/
theorem claim_c9_amended_witness :
    ∃ c' mpre mmid mpost,
      chatGetSlice
          ⟨[("28/08/2020, 18:33 - John: one").data, ("28/08/2020, 18:34 - Jack: two").data,
            ("28/08/2020, 18:35 - John: three").data], true,
           [⟨⟨2020, 8, 28, 18, 33, 0⟩, ("John").data, ("one").data⟩,
            ⟨⟨2020, 8, 28, 18, 34, 0⟩, ("Jack").data, ("two").data⟩,
            ⟨⟨2020, 8, 28, 18, 35, 0⟩, ("John").data, ("three").data⟩],
           (([⟨⟨2020, 8, 28, 18, 33, 0⟩, ("John").data, ("one").data⟩,
              ⟨⟨2020, 8, 28, 18, 34, 0⟩, ("Jack").data, ("two").data⟩,
              ⟨⟨2020, 8, 28, 18, 35, 0⟩, ("John").data, ("three").data⟩] : List Message).map
             Message.author).toFinset⟩ 1 2 = some c'
        ∧ (⟨[("28/08/2020, 18:33 - John: one").data, ("28/08/2020, 18:34 - Jack: two").data,
              ("28/08/2020, 18:35 - John: three").data], true,
             [⟨⟨2020, 8, 28, 18, 33, 0⟩, ("John").data, ("one").data⟩,
              ⟨⟨2020, 8, 28, 18, 34, 0⟩, ("Jack").data, ("two").data⟩,
              ⟨⟨2020, 8, 28, 18, 35, 0⟩, ("John").data, ("three").data⟩],
             (([⟨⟨2020, 8, 28, 18, 33, 0⟩, ("John").data, ("one").data⟩,
                ⟨⟨2020, 8, 28, 18, 34, 0⟩, ("Jack").data, ("two").data⟩,
                ⟨⟨2020, 8, 28, 18, 35, 0⟩, ("John").data, ("three").data⟩] : List Message).map
               Message.author).toFinset⟩ : Chat).messages = mpre ++ mmid ++ mpost
        ∧ c'.messages = mmid
        ∧ c'.participants = (mmid.map Message.author).toFinset :=
  claim_c9_amended.2.2 [("28/08/2020, 18:33 - John: one").data] []
    [("28/08/2020, 18:35 - John: three").data] ("28/08/2020, 18:34 - Jack: two").data
    ⟨[("28/08/2020, 18:33 - John: one").data, ("28/08/2020, 18:34 - Jack: two").data,
      ("28/08/2020, 18:35 - John: three").data], true,
     [⟨⟨2020, 8, 28, 18, 33, 0⟩, ("John").data, ("one").data⟩,
      ⟨⟨2020, 8, 28, 18, 34, 0⟩, ("Jack").data, ("two").data⟩,
      ⟨⟨2020, 8, 28, 18, 35, 0⟩, ("John").data, ("three").data⟩],
     (([⟨⟨2020, 8, 28, 18, 33, 0⟩, ("John").data, ("one").data⟩,
        ⟨⟨2020, 8, 28, 18, 34, 0⟩, ("Jack").data, ("two").data⟩,
        ⟨⟨2020, 8, 28, 18, 35, 0⟩, ("John").data, ("three").data⟩] : List Message).map
       Message.author).toFinset⟩
    rfl (by decide) (Or.inr ⟨("28/08/2020, 18:35 - John: three").data, [], rfl, by decide⟩)

end Wassap

